import Mathlib

set_option maxHeartbeats 1000000
set_option maxRecDepth 100000

namespace RAG

/-- Code points of a Lean string literal; used to transcribe the string
constants appearing in the TypeScript source into the `List Nat` world of
this development. -/
def str (s : String) : List Nat := s.data.map Char.toNat

/-! ## UTF-8 byte stream decoding

The chat stream consumers receive `Uint8Array` chunks and decode them with
`TextDecoder`.  `sendMessage` (the buffered consumer, `src/unnamed/part_004`)
passes `stream: true`, so a multi-byte character split across chunk
boundaries is kept pending; `handleSubmit`
(`src/frontend/components/ChatWindow.tsx`) decodes every chunk
independently.  Bytes and code points are modelled as `Nat`.  Ill-formed
sequences resynchronise one byte at a time emitting U+FFFD; on well-formed
input — the only input the re-chunking claim quantifies over — this agrees
with the platform decoder. -/

/-- Expected length in bytes of a UTF-8 sequence as determined by its first
byte.  Bytes that cannot start a sequence give length 1 (resynchronise). -/
def utf8Len (b : Nat) : Nat :=
  if b < 0xC0 then 1 else if b < 0xE0 then 2 else if b < 0xF0 then 3
  else if b < 0xF8 then 4 else 1

/-- Is `b` a UTF-8 continuation byte? -/
def isCont (b : Nat) : Bool := decide (0x80 ≤ b ∧ b < 0xC0)

/-- Decode one complete UTF-8 sequence (1 to 4 bytes) to a code point,
yielding U+FFFD on malformed input. -/
def decodeSeq : List Nat → Nat
  | [b] => if b < 0x80 then b else 0xFFFD
  | [b1, b2] =>
    if isCont b2 then (b1 - 0xC0) * 64 + (b2 - 0x80) else 0xFFFD
  | [b1, b2, b3] =>
    if isCont b2 && isCont b3 then
      (b1 - 0xE0) * 4096 + (b2 - 0x80) * 64 + (b3 - 0x80)
    else 0xFFFD
  | [b1, b2, b3, b4] =>
    if isCont b2 && isCont b3 && isCont b4 then
      (b1 - 0xF0) * 262144 + (b2 - 0x80) * 4096 + (b3 - 0x80) * 64 + (b4 - 0x80)
    else 0xFFFD
  | _ => 0xFFFD

/-- Fuelled streaming UTF-8 decode.  The fuel only drives termination; with
fuel at least the length of the input (see `decGo`) it computes the code
points of the maximal decodable prefix together with the incomplete trailing
bytes that `TextDecoder` keeps pending in streaming mode. -/
def decGoF : Nat → List Nat → List Nat × List Nat
  | 0, l => ([], l)
  | fuel + 1, l =>
    match l with
    | [] => ([], [])
    | b :: rest =>
      if rest.length + 1 < utf8Len b then ([], b :: rest)
      else
        let q := decGoF fuel (List.drop (utf8Len b - 1) rest)
        (decodeSeq (List.take (utf8Len b) (b :: rest)) :: q.1, q.2)

/-- Streaming UTF-8 decode step: code points of the maximal decodable
prefix, and the pending incomplete trailing bytes. -/
def decGo (l : List Nat) : List Nat × List Nat := decGoF l.length l

/-- Non-streaming decode, as performed by `decoder.decode(value)` in
`handleSubmit`: an incomplete trailing sequence is flushed to U+FFFD. -/
def decodeFull (bytes : List Nat) : List Nat :=
  (decGo bytes).1 ++ (if (decGo bytes).2 = [] then [] else [0xFFFD])

/-- UTF-8 encoding of a code point. -/
def utf8Encode (c : Nat) : List Nat :=
  if c < 0x80 then [c]
  else if c < 0x800 then [0xC0 + c / 64, 0x80 + c % 64]
  else if c < 0x10000 then [0xE0 + c / 4096, 0x80 + c / 64 % 64, 0x80 + c % 64]
  else [0xF0 + c / 262144, 0x80 + c / 4096 % 64, 0x80 + c / 64 % 64, 0x80 + c % 64]

/-- UTF-8 bytes of a Lean string literal, for concrete wire inputs. -/
def strBytes (s : String) : List Nat := (str s).flatMap utf8Encode

theorem decGoF_congr (fuel fuel' : Nat) (l : List Nat) (h : l.length ≤ fuel)
    (h' : l.length ≤ fuel') : decGoF fuel l = decGoF fuel' l := by
  induction fuel generalizing l fuel' with
  | zero =>
    have : l = [] := List.length_eq_zero.mp (Nat.le_zero.mp h)
    subst this
    cases fuel' <;> simp [decGoF]
  | succ fuel ih =>
    match l, fuel', h' with
    | [], 0, _ => simp [decGoF]
    | [], fuel' + 1, _ => simp [decGoF]
    | b :: rest, fuel' + 1, h' =>
      simp only [decGoF]
      split
      · rfl
      · have hlen : (List.drop (utf8Len b - 1) rest).length ≤ fuel := by
          simp only [List.length_drop]
          simp only [List.length_cons] at h
          omega
        have hlen' : (List.drop (utf8Len b - 1) rest).length ≤ fuel' := by
          simp only [List.length_drop]
          simp only [List.length_cons] at h'
          omega
        rw [ih _ _ hlen hlen']

theorem decGo_nil : decGo [] = ([], []) := rfl

/-- One-step unfolding of the streaming decoder. -/
theorem decGo_cons (b : Nat) (rest : List Nat) :
    decGo (b :: rest) =
      if rest.length + 1 < utf8Len b then ([], b :: rest)
      else
        (decodeSeq (List.take (utf8Len b) (b :: rest)) ::
            (decGo (List.drop (utf8Len b - 1) rest)).1,
          (decGo (List.drop (utf8Len b - 1) rest)).2) := by
  show decGoF (rest.length + 1) (b :: rest) = _
  simp only [decGoF]
  split
  · rfl
  · rw [decGoF_congr rest.length (List.drop (utf8Len b - 1) rest).length
      (List.drop (utf8Len b - 1) rest) (by simp [List.length_drop]) (le_refl _)]
    rfl

/-- The streaming decoder consumes input left to right: decoding `a ++ c`
first decodes `a`, then restarts on the pending remainder of `a` followed
by `c`.  This is the compositionality fact behind chunk invariance. -/
theorem decGo_append (a c : List Nat) :
    decGo (a ++ c) =
      ((decGo a).1 ++ (decGo ((decGo a).2 ++ c)).1, (decGo ((decGo a).2 ++ c)).2) := by
  have H : ∀ (n : Nat) (a : List Nat), a.length ≤ n → ∀ c : List Nat,
      decGo (a ++ c) =
        ((decGo a).1 ++ (decGo ((decGo a).2 ++ c)).1, (decGo ((decGo a).2 ++ c)).2) := by
    intro n
    induction n with
    | zero =>
      intro a ha c
      have : a = [] := List.length_eq_zero.mp (Nat.le_zero.mp ha)
      subst this
      simp [decGo_nil]
    | succ n ih =>
      intro a ha c
      match a with
      | [] => simp [decGo_nil]
      | b :: rest =>
        by_cases hshort : rest.length + 1 < utf8Len b
        · have h1 : decGo (b :: rest) = ([], b :: rest) := by
            rw [decGo_cons, if_pos hshort]
          rw [h1]
          simp only [List.nil_append]
        · have h1 : decGo (b :: rest) =
              (decodeSeq (List.take (utf8Len b) (b :: rest)) ::
                  (decGo (List.drop (utf8Len b - 1) rest)).1,
                (decGo (List.drop (utf8Len b - 1) rest)).2) := by
            rw [decGo_cons, if_neg hshort]
          have hlonger : ¬ (rest ++ c).length + 1 < utf8Len b := by
            simp only [List.length_append]; omega
          have h2 : decGo ((b :: rest) ++ c) =
              (decodeSeq (List.take (utf8Len b) (b :: (rest ++ c))) ::
                  (decGo (List.drop (utf8Len b - 1) (rest ++ c))).1,
                (decGo (List.drop (utf8Len b - 1) (rest ++ c))).2) := by
            rw [List.cons_append, decGo_cons, if_neg hlonger]
          have htake : List.take (utf8Len b) (b :: (rest ++ c)) =
              List.take (utf8Len b) (b :: rest) := by
            rw [show b :: (rest ++ c) = (b :: rest) ++ c from rfl,
              List.take_append_of_le_length ?_]
            simp only [List.length_cons]
            omega
          have hdrop : List.drop (utf8Len b - 1) (rest ++ c) =
              List.drop (utf8Len b - 1) rest ++ c :=
            List.drop_append_of_le_length (by omega)
          have hrec := ih (List.drop (utf8Len b - 1) rest)
            (by simp only [List.length_drop]; simp only [List.length_cons] at ha; omega) c
          rw [h1, h2, htake, hdrop, hrec]
          simp
  exact H a.length a (le_refl _) c

/-- The pending remainder of the decoder decodes to nothing on its own. -/
theorem decGo_snd_fix (s : List Nat) :
    decGo ((decGo s).2) = ([], (decGo s).2) := by
  have h := decGo_append s []
  rw [List.append_nil, List.append_nil] at h
  have h1 := congrArg Prod.fst h
  have h2 := congrArg Prod.snd h
  simp only at h1 h2
  have hlen := congrArg List.length h1
  rw [List.length_append] at hlen
  have : (decGo ((decGo s).2)).1 = [] :=
    List.eq_nil_of_length_eq_zero (by omega)
  exact Prod.ext this (by rw [← h2])


/-! ## Frame reassembly

`sendMessage` accumulates decoded text in `buffer`, splits on the blank-line
separator with `buffer.split('\n\n')`, pops the trailing (incomplete) part
back into the buffer and processes every complete frame.  `splitFrames`
models JavaScript `String.prototype.split` with the two-character separator
`"\n\n"` (leftmost, non-overlapping): it always returns at least one part,
and no returned part contains the separator. -/

def consHead (c : Nat) : List (List Nat) → List (List Nat)
  | [] => [[c]]
  | f :: fs => (c :: f) :: fs

def splitFrames : List Nat → List (List Nat)
  | [] => [[]]
  | [c] => [[c]]
  | c1 :: c2 :: rest =>
    if c1 = 10 ∧ c2 = 10 then [] :: splitFrames rest
    else consHead c1 (splitFrames (c2 :: rest))

theorem splitFrames_ne_nil (s : List Nat) : splitFrames s ≠ [] := by
  induction s using splitFrames.induct with
  | case1 => simp [splitFrames]
  | case2 c => simp [splitFrames]
  | case3 c1 c2 rest h ih => simp [splitFrames, h]
  | case4 c1 c2 rest h ih =>
    simp only [splitFrames, if_neg h]
    match splitFrames (c2 :: rest), ih with
    | f :: fs, _ => simp [consHead]

theorem splitFrames_singleton (s : List Nat) (m : List Nat)
    (h : splitFrames s = [m]) : m = s := by
  induction s using splitFrames.induct generalizing m with
  | case1 => simp [splitFrames] at h; simp [h]
  | case2 c => simp [splitFrames] at h; exact h.symm
  | case3 c1 c2 rest hc ih =>
    simp only [splitFrames, if_pos hc] at h
    have := splitFrames_ne_nil rest
    simp at h
    exact absurd h.2 this
  | case4 c1 c2 rest hc ih =>
    simp only [splitFrames, if_neg hc] at h
    cases hsf : splitFrames (c2 :: rest) with
    | nil => exact absurd hsf (splitFrames_ne_nil _)
    | cons f fs =>
      rw [hsf] at h
      simp only [consHead] at h
      obtain ⟨h1, h2⟩ := List.cons_eq_cons.mp h
      have := ih f (by rw [hsf, h2])
      rw [← h1, this]

theorem splitFrames_append (a b : List Nat) :
    splitFrames (a ++ b) =
      (splitFrames a).dropLast ++ splitFrames ((splitFrames a).getLastD [] ++ b) := by
  induction a using splitFrames.induct with
  | case1 => simp [splitFrames]
  | case2 c => simp [splitFrames]
  | case3 c1 c2 rest hc ih =>
    have hstep : splitFrames ((10 :: 10 :: rest) ++ b) = [] :: splitFrames (rest ++ b) := by
      simp only [List.cons_append]
      simp [splitFrames]
    have hstepa : splitFrames (10 :: 10 :: rest) = [] :: splitFrames rest := by
      simp [splitFrames]
    obtain ⟨hc1, hc2⟩ := hc
    subst hc1; subst hc2
    rw [hstep, hstepa, ih]
    cases hL : splitFrames rest with
    | nil => exact absurd hL (splitFrames_ne_nil _)
    | cons f fs => simp [List.getLastD]
  | case4 c1 c2 rest hc ih =>
    have hstep : splitFrames ((c1 :: c2 :: rest) ++ b) =
        consHead c1 (splitFrames ((c2 :: rest) ++ b)) := by
      simp only [List.cons_append]
      simp only [splitFrames, if_neg hc]
    have hstepa : splitFrames (c1 :: c2 :: rest) =
        consHead c1 (splitFrames (c2 :: rest)) := by
      simp only [splitFrames, if_neg hc]
    rw [hstep, hstepa, ih]
    cases hM : splitFrames (c2 :: rest) with
    | nil => exact absurd hM (splitFrames_ne_nil _)
    | cons m0 t =>
      cases t with
      | nil =>
        have hm : m0 = c2 :: rest := splitFrames_singleton _ _ hM
        subst hm
        simp only [consHead, List.dropLast, List.nil_append, List.getLastD]
        have : splitFrames ((c1 :: c2 :: rest) ++ b) =
            consHead c1 (splitFrames ((c2 :: rest) ++ b)) := hstep
        simp only [List.cons_append] at this ⊢
        exact this.symm
      | cons f' t' =>
        simp only [consHead, List.getLastD]
        cases t' with
        | nil => simp [consHead]
        | cons g t'' => simp [consHead, List.getLastD]

theorem splitFrames_getLastD (s : List Nat) :
    splitFrames ((splitFrames s).getLastD []) = [(splitFrames s).getLastD []] := by
  induction s using splitFrames.induct with
  | case1 => simp [splitFrames]
  | case2 c => simp [splitFrames]
  | case3 c1 c2 rest hc ih =>
    obtain ⟨hc1, hc2⟩ := hc
    subst hc1; subst hc2
    have hstepa : splitFrames (10 :: 10 :: rest) = [] :: splitFrames rest := by
      simp [splitFrames]
    rw [hstepa]
    cases hL : splitFrames rest with
    | nil => exact absurd hL (splitFrames_ne_nil _)
    | cons f fs =>
      rw [hL] at ih
      simpa [List.getLastD] using ih
  | case4 c1 c2 rest hc ih =>
    have hstepa : splitFrames (c1 :: c2 :: rest) =
        consHead c1 (splitFrames (c2 :: rest)) := by
      simp only [splitFrames, if_neg hc]
    rw [hstepa]
    cases hM : splitFrames (c2 :: rest) with
    | nil => exact absurd hM (splitFrames_ne_nil _)
    | cons m0 t =>
      cases t with
      | nil =>
        have hm : m0 = c2 :: rest := splitFrames_singleton _ _ hM
        subst hm
        have hgl : (consHead c1 [c2 :: rest]).getLastD ([] : List Nat) =
            c1 :: c2 :: rest := rfl
        rw [hgl, hstepa, hM]
        rfl
      | cons f' t' =>
        rw [hM] at ih
        simp only [consHead, List.getLastD] at ih ⊢
        exact ih


/-! JSON -/

inductive Json where
  | null : Json
  | jbool : Bool → Json
  | jnum : List Nat → Json
  | jstr : List Nat → Json
  | jarr : List Json → Json
  | jobj : List (List Nat × Json) → Json

def jsonWs (c : Nat) : Bool := decide (c = 32 ∨ c = 9 ∨ c = 10 ∨ c = 13)

def skipWs (s : List Nat) : List Nat := s.dropWhile jsonWs

def isDigit (c : Nat) : Bool := decide (48 ≤ c ∧ c ≤ 57)

def isHexDigit (c : Nat) : Bool :=
  decide ((48 ≤ c ∧ c ≤ 57) ∨ (97 ≤ c ∧ c ≤ 102) ∨ (65 ≤ c ∧ c ≤ 70))

def hexVal (c : Nat) : Nat :=
  if 48 ≤ c ∧ c ≤ 57 then c - 48
  else if 97 ≤ c ∧ c ≤ 102 then c - 87
  else if 65 ≤ c ∧ c ≤ 70 then c - 55
  else 0

def escChar (c : Nat) : Option Nat :=
  if c = 34 ∨ c = 92 ∨ c = 47 then some c
  else if c = 98 then some 8
  else if c = 102 then some 12
  else if c = 110 then some 10
  else if c = 114 then some 13
  else if c = 116 then some 9
  else none

def parseStringBody : List Nat → Option (List Nat × List Nat)
  | 34 :: rest => some ([], rest)
  | 92 :: 117 :: h1 :: h2 :: h3 :: h4 :: rest =>
    if isHexDigit h1 && isHexDigit h2 && isHexDigit h3 && isHexDigit h4 then
      (parseStringBody rest).map
        (fun p => ((hexVal h1 * 4096 + hexVal h2 * 256 + hexVal h3 * 16 + hexVal h4) :: p.1, p.2))
    else none
  | 92 :: e :: rest =>
    match escChar e with
    | some c => (parseStringBody rest).map (fun p => (c :: p.1, p.2))
    | none => none
  | c :: rest =>
    if c < 32 || c == 92 then none
    else (parseStringBody rest).map (fun p => (c :: p.1, p.2))
  | [] => none

def parseNumExp (lex : List Nat) (s : List Nat) : Option (List Nat × List Nat) :=
  match s with
  | e :: r =>
    if e = 101 ∨ e = 69 then
      let p := match r with
        | 43 :: r' => (([43] : List Nat), r')
        | 45 :: r' => (([45] : List Nat), r')
        | _ => (([] : List Nat), r)
      let ds := p.2.takeWhile isDigit
      if ds = [] then none
      else some (lex ++ [e] ++ p.1 ++ ds, p.2.drop ds.length)
    else some (lex, s)
  | [] => some (lex, [])

def parseNumber (s : List Nat) : Option (List Nat × List Nat) :=
  let p := match s with | 45 :: r => (([45] : List Nat), r) | _ => (([] : List Nat), s)
  let ip := p.2.takeWhile isDigit
  let s2 := p.2.drop ip.length
  if ip = [] then none
  else if ip.length > 1 && ip.headD 0 == 48 then none
  else match s2 with
    | 46 :: r =>
      let ds := r.takeWhile isDigit
      if ds = [] then none else parseNumExp (p.1 ++ ip ++ 46 :: ds) (r.drop ds.length)
    | _ => parseNumExp (p.1 ++ ip) s2

mutual

def parseValue : Nat → List Nat → Option (Json × List Nat)
  | 0, _ => none
  | fuel + 1, s =>
    match skipWs s with
    | 110 :: 117 :: 108 :: 108 :: rest => some (.null, rest)
    | 116 :: 114 :: 117 :: 101 :: rest => some (.jbool true, rest)
    | 102 :: 97 :: 108 :: 115 :: 101 :: rest => some (.jbool false, rest)
    | 34 :: rest => (parseStringBody rest).map (fun p => (.jstr p.1, p.2))
    | 91 :: rest =>
      match skipWs rest with
      | 93 :: rest' => some (.jarr [], rest')
      | _ => (parseItems fuel rest).map (fun p => (.jarr p.1, p.2))
    | 123 :: rest =>
      match skipWs rest with
      | 125 :: rest' => some (.jobj [], rest')
      | _ => (parseFields fuel rest).map (fun p => (.jobj p.1, p.2))
    | s' => (parseNumber s').map (fun p => (.jnum p.1, p.2))

def parseItems : Nat → List Nat → Option (List Json × List Nat)
  | 0, _ => none
  | fuel + 1, s =>
    match parseValue fuel s with
    | none => none
    | some (v, rest) =>
      match skipWs rest with
      | 44 :: rest' => (parseItems fuel rest').map (fun p => (v :: p.1, p.2))
      | 93 :: rest' => some ([v], rest')
      | _ => none

def parseFields : Nat → List Nat → Option (List (List Nat × Json) × List Nat)
  | 0, _ => none
  | fuel + 1, s =>
    match skipWs s with
    | 34 :: rest =>
      match parseStringBody rest with
      | none => none
      | some (key, rest1) =>
        match skipWs rest1 with
        | 58 :: rest2 =>
          match parseValue fuel rest2 with
          | none => none
          | some (v, rest3) =>
            match skipWs rest3 with
            | 44 :: rest4 => (parseFields fuel rest4).map (fun p => ((key, v) :: p.1, p.2))
            | 125 :: rest4 => some ([(key, v)], rest4)
            | _ => none
        | _ => none
    | _ => none

end

def jsonParse (s : List Nat) : Option Json :=
  match parseValue (s.length + 2) s with
  | some (v, rest) => if skipWs rest = [] then some v else none
  | none => none

/-! JS string helpers -/

def jsWs (c : Nat) : Bool :=
  decide (c = 9 ∨ c = 10 ∨ c = 11 ∨ c = 12 ∨ c = 13 ∨ c = 32 ∨ c = 160 ∨ c = 0xFEFF)

def trimWs (s : List Nat) : List Nat :=
  ((s.dropWhile jsWs).reverse.dropWhile jsWs).reverse

def splitNl : List Nat → List (List Nat)
  | [] => [[]]
  | 10 :: rest => [] :: splitNl rest
  | c :: rest => consHead c (splitNl rest)

def replaceFirst (pat : List Nat) : List Nat → List Nat
  | [] => []
  | c :: rest =>
    if pat.isPrefixOf (c :: rest) then List.drop pat.length (c :: rest)
    else c :: replaceFirst pat rest

def getField (j : Json) (key : List Nat) : Option Json :=
  match j with
  | .jobj fields => ((fields.filter (fun f => f.1 == key)).getLast?).map Prod.snd
  | _ => none

def numIsZero (lex : List Nat) : Bool :=
  (lex.takeWhile (fun c => !(c == 101 || c == 69))).all (fun c => c == 48 || c == 46 || c == 45)

def truthy : Json → Bool
  | .null => false
  | .jbool b => b
  | .jnum lex => !numIsZero lex
  | .jstr s => !(s.isEmpty)
  | .jarr _ => true
  | .jobj _ => true

mutual
def tokenText : Json → List Nat
  | .null => str "null"
  | .jbool b => if b then str "true" else str "false"
  | .jnum lex => lex
  | .jstr s => s
  | .jarr xs => tokenTextList xs
  | .jobj _ => str "[object Object]"
def tokenTextList : List Json → List Nat
  | [] => []
  | [x] => (match x with | .null => [] | y => tokenText y)
  | x :: xs => (match x with | .null => [] | y => tokenText y) ++ 44 :: tokenTextList xs
end

/-! Protocol events and the sendMessage frame classifier -/

inductive ProtocolEvent where
  | token : Json → ProtocolEvent
  | citations : Json → ProtocolEvent

def ProtocolEvent.text : ProtocolEvent → List Nat
  | .token v => tokenText v
  | .citations _ => []

def dataMarker : List Nat := str "data: "
def citMarker : List Nat := str "event: citations"

def classifyFrame (f : List Nat) : Except Unit (Option ProtocolEvent) :=
  if citMarker.isPrefixOf (trimWs f) then
    match (splitNl f)[1]? with
    | some dl =>
      if dataMarker.isPrefixOf dl then
        match jsonParse (replaceFirst dataMarker dl) with
        | some j => .ok (some (.citations j))
        | none => .error ()
      else .ok none
    | none => .ok none
  else if dataMarker.isPrefixOf (trimWs f) then
    match jsonParse (replaceFirst dataMarker f) with
    | some j =>
      match getField j (str "token") with
      | some v => .ok (if truthy v then some (.token v) else none)
      | none => .ok none
    | none => .ok none
  else .ok none

def processFrames : List (List Nat) → List ProtocolEvent × Bool
  | [] => ([], false)
  | f :: fs =>
    match classifyFrame f with
    | .error _ => ([], true)
    | .ok none => processFrames fs
    | .ok (some e) => (e :: (processFrames fs).1, (processFrames fs).2)

def consumeFrom : List Nat → List Nat → Bool → List (List Nat) → List ProtocolEvent
  | _, _, _, [] => []
  | p, buf, ab, c :: cs =>
    if ab then [] else
    let d := decGo (p ++ c)
    let parts := splitFrames (buf ++ d.1)
    let pr := processFrames parts.dropLast
    pr.1 ++ consumeFrom d.2 (parts.getLastD []) pr.2 cs

def sendMessageEvents (chunks : List (List Nat)) : List ProtocolEvent :=
  consumeFrom [] [] false chunks


/-! ## Chunk invariance of the buffered consumer -/

theorem processFrames_err (f : List Nat) (fs : List (List Nat)) (u : Unit)
    (h : classifyFrame f = .error u) : processFrames (f :: fs) = ([], true) := by
  simp [processFrames, h]

theorem processFrames_skip (f : List Nat) (fs : List (List Nat))
    (h : classifyFrame f = .ok none) : processFrames (f :: fs) = processFrames fs := by
  simp [processFrames, h]

theorem processFrames_emit (f : List Nat) (fs : List (List Nat)) (e : ProtocolEvent)
    (h : classifyFrame f = .ok (some e)) :
    processFrames (f :: fs) = (e :: (processFrames fs).1, (processFrames fs).2) := by
  simp [processFrames, h]

theorem processFrames_append (f1 f2 : List (List Nat)) :
    processFrames (f1 ++ f2) =
      (if (processFrames f1).2 then processFrames f1
       else ((processFrames f1).1 ++ (processFrames f2).1, (processFrames f2).2)) := by
  induction f1 with
  | nil => simp [processFrames]
  | cons f fs ih =>
    rw [List.cons_append]
    cases hcf : classifyFrame f with
    | error u =>
      rw [processFrames_err f (fs ++ f2) u hcf, processFrames_err f fs u hcf]
      simp
    | ok oe =>
      cases oe with
      | none =>
        rw [processFrames_skip f (fs ++ f2) hcf, processFrames_skip f fs hcf, ih]
      | some e =>
        rw [processFrames_emit f (fs ++ f2) e hcf, processFrames_emit f fs e hcf, ih]
        by_cases hb : (processFrames fs).2
        · simp [hb]
        · simp [hb]

theorem consumeFrom_abort (p buf : List Nat) (cs : List (List Nat)) :
    consumeFrom p buf true cs = [] := by
  cases cs with
  | nil => rfl
  | cons c cs => simp [consumeFrom]

theorem consumeFrom_cons (p buf c : List Nat) (cs : List (List Nat)) :
    consumeFrom p buf false (c :: cs) =
      (processFrames ((splitFrames (buf ++ (decGo (p ++ c)).1)).dropLast)).1 ++
        consumeFrom (decGo (p ++ c)).2
          ((splitFrames (buf ++ (decGo (p ++ c)).1)).getLastD [])
          (processFrames ((splitFrames (buf ++ (decGo (p ++ c)).1)).dropLast)).2 cs := by
  simp [consumeFrom]

/-- Running the buffered consumer over a chunk list is the same as splitting
and classifying the frames of the decoded concatenation of all chunks. -/
theorem consumeFrom_spec (cs : List (List Nat)) : ∀ p buf : List Nat,
    decGo p = ([], p) → splitFrames buf = [buf] →
    consumeFrom p buf false cs =
      (processFrames ((splitFrames (buf ++ (decGo (p ++ cs.flatten)).1)).dropLast)).1 := by
  induction cs with
  | nil =>
    intro p buf hp hb
    show ([] : List ProtocolEvent) = _
    rw [List.flatten_nil, List.append_nil, hp]
    simp [hb, List.dropLast, processFrames]
  | cons c cs ih =>
    intro p buf hp hb
    have hd2 := decGo_snd_fix (p ++ c)
    have hlast := splitFrames_getLastD (buf ++ (decGo (p ++ c)).1)
    have hdec : (decGo (p ++ (c :: cs).flatten)).1 =
        (decGo (p ++ c)).1 ++ (decGo ((decGo (p ++ c)).2 ++ cs.flatten)).1 := by
      rw [List.flatten_cons, show p ++ (c ++ cs.flatten) = (p ++ c) ++ cs.flatten by
        rw [List.append_assoc], decGo_append (p ++ c) cs.flatten]
    have hsplit : splitFrames (buf ++ (decGo (p ++ (c :: cs).flatten)).1) =
        (splitFrames (buf ++ (decGo (p ++ c)).1)).dropLast ++
          splitFrames ((splitFrames (buf ++ (decGo (p ++ c)).1)).getLastD [] ++
            (decGo ((decGo (p ++ c)).2 ++ cs.flatten)).1) := by
      rw [hdec, show buf ++ ((decGo (p ++ c)).1 ++ (decGo ((decGo (p ++ c)).2 ++ cs.flatten)).1) =
        (buf ++ (decGo (p ++ c)).1) ++ (decGo ((decGo (p ++ c)).2 ++ cs.flatten)).1 by
        rw [List.append_assoc],
        splitFrames_append]
    have hdl : (splitFrames (buf ++ (decGo (p ++ (c :: cs).flatten)).1)).dropLast =
        (splitFrames (buf ++ (decGo (p ++ c)).1)).dropLast ++
          (splitFrames ((splitFrames (buf ++ (decGo (p ++ c)).1)).getLastD [] ++
            (decGo ((decGo (p ++ c)).2 ++ cs.flatten)).1)).dropLast := by
      rw [hsplit]
      exact List.dropLast_append_of_ne_nil _ (splitFrames_ne_nil _)
    rw [consumeFrom_cons, hdl, processFrames_append]
    by_cases hab : (processFrames ((splitFrames (buf ++ (decGo (p ++ c)).1)).dropLast)).2
    · rw [hab, consumeFrom_abort]
      simp
    · rw [Bool.not_eq_true] at hab
      rw [hab, if_neg (by simp)]
      rw [ih (decGo (p ++ c)).2 ((splitFrames (buf ++ (decGo (p ++ c)).1)).getLastD [])
        hd2 hlast]

/-- The buffered consumer in terms of the full byte stream alone. -/
theorem sendMessageEvents_eq (chunks : List (List Nat)) :
    sendMessageEvents chunks =
      (processFrames ((splitFrames (decGo chunks.flatten).1).dropLast)).1 := by
  have h := consumeFrom_spec chunks [] [] rfl rfl
  simpa [sendMessageEvents] using h

/-! ## The unbuffered consumer of handleSubmit (ChatWindow.tsx)

`handleSubmit` decodes each chunk independently (`decoder.decode(value)`
without `stream: true`), splits the chunk on single newlines, and handles
every line beginning with `data: ` by itself; there is no carry-over buffer
between chunks. -/

/-- Events produced by one line of `handleSubmit`: a `data: ` line is
JSON-parsed (errors caught and dropped); a truthy `token` field appends
text, a truthy `citations` field captures a citation list. -/
def lineEvents (line : List Nat) : List ProtocolEvent :=
  if dataMarker.isPrefixOf line then
    match jsonParse (replaceFirst dataMarker line) with
    | some j =>
      (match getField j (str "token") with
       | some v => if truthy v then [ProtocolEvent.token v] else []
       | none => []) ++
      (match getField j (str "citations") with
       | some v => if truthy v then [ProtocolEvent.citations v] else []
       | none => [])
    | none => []
  else []

/-- The event sequence `handleSubmit` derives from a chunked byte stream:
per-chunk decode, per-chunk split on single newlines, per-line handling. -/
def handleSubmitEvents (chunks : List (List Nat)) : List ProtocolEvent :=
  (chunks.map (fun c => ((splitNl (decodeFull c)).map lineEvents).flatten)).flatten

/-! ## Conversation state

Both ChatWindow implementations keep `messages : Message[]` and fold stream
events into it with `setMessages` updaters.  Timestamps are presentational
and omitted. -/

inductive Role where
  | user : Role
  | assistant : Role
deriving DecidableEq

structure Msg where
  role : Role
  content : List Nat
  citations : Option Json

/-- Apply an update to the last element of a list, as the
`newMsgs[newMsgs.length - 1] = ...` updates do.  (Both components start
with a nonempty greeting message, so the empty case is unreachable.) -/
def setLast (f : Msg → Msg) : List Msg → List Msg
  | [] => []
  | [m] => [f m]
  | m :: rest => m :: setLast f rest

/-- One stream event applied to the message list by `sendMessage`
(src/unnamed/part_004, lines 85-104): a token appends its text to the last
message's content, a citations frame overwrites the last message's citation
list.  Neither checks the last message's role. -/
def sendMessageApply (msgs : List Msg) : ProtocolEvent → List Msg
  | .token v => setLast (fun m => { m with content := m.content ++ tokenText v }) msgs
  | .citations j => setLast (fun m => { m with citations := some j }) msgs

def sendMessageFold (msgs : List Msg) (evs : List ProtocolEvent) : List Msg :=
  evs.foldl sendMessageApply msgs

def sendMessageDiag : List Nat := str "Connection error. Please check if the backend is running."

/-- The catch-handler of `sendMessage`: replace the last message's content
with the fixed diagnostic only if it is an assistant message whose content
is still empty; the list length never changes. -/
def sendMessageOnError (msgs : List Msg) : List Msg :=
  setLast (fun m =>
    if m.role = .assistant ∧ m.content = [] then { m with content := sendMessageDiag }
    else m) msgs

/-- State of `handleSubmit` during a stream: messages plus the closures
`accumulatedText` and `accumulatedCitations`. -/
structure HandleSubmitState where
  msgs : List Msg
  acc : List Nat
  accCit : Json

/-- One stream event applied by `handleSubmit` (ChatWindow.tsx, lines
76-107): a token extends `accumulatedText` and writes it into the last
message only when that message is an assistant message; a citations payload
only replaces `accumulatedCitations`. -/
def handleSubmitApply (s : HandleSubmitState) : ProtocolEvent → HandleSubmitState
  | .token v =>
    { s with
      acc := s.acc ++ tokenText v,
      msgs := setLast (fun m =>
        if m.role = .assistant then { m with content := s.acc ++ tokenText v } else m) s.msgs }
  | .citations v => { s with accCit := v }

def handleSubmitFold (s : HandleSubmitState) (evs : List ProtocolEvent) : HandleSubmitState :=
  evs.foldl handleSubmitApply s

/-- JavaScript `x.length > 0` where `x` is an arbitrary JSON value:
`undefined > 0` is false for values with no `length` property. -/
def jsLenPos : Json → Bool
  | .jarr xs => decide (0 < xs.length)
  | .jstr s => decide (0 < s.length)
  | _ => false

/-- The attach-citations step `handleSubmit` runs once, after the stream is
exhausted (ChatWindow.tsx lines 97-107). -/
def handleSubmitFinish (s : HandleSubmitState) : List Msg :=
  if jsLenPos s.accCit then
    setLast (fun m =>
      if m.role = .assistant then { m with citations := some s.accCit } else m) s.msgs
  else s.msgs

def handleSubmitDiag : List Nat := str "Connection error. Please try again."

/-- The catch-handler of `handleSubmit` (ChatWindow.tsx line 111): it always
appends a fresh assistant message carrying the diagnostic. -/
def handleSubmitOnError (msgs : List Msg) : List Msg :=
  msgs ++ [{ role := .assistant, content := handleSubmitDiag, citations := none }]

/-- Guarded entry of `handleSubmit` (ChatWindow.tsx lines 32-39): no-op if
the trimmed input is empty or a stream is open; otherwise the trimmed user
turn is appended and the request goes out.  The boolean reports whether a
request was issued. -/
def handleSubmitStart (input : List Nat) (isStreaming : Bool) (msgs : List Msg) :
    List Msg × Bool :=
  if trimWs input = [] ∨ isStreaming then (msgs, false)
  else (msgs ++ [{ role := .user, content := trimWs input, citations := none }], true)

/-- Guarded entry of `sendMessage`: the call sites
(`onKeyDown={... !loading && sendMessage()}`, the button disabled while
`loading`, and the input disabled while `loading`, src/unnamed/part_004
lines 306-311) refuse to invoke it while a stream is open, and `sendMessage`
itself returns early on blank input (line 46).  On success the untrimmed
user turn and the empty open assistant turn are appended (lines 51, 56). -/
def sendMessageStart (loading : Bool) (input : List Nat) (msgs : List Msg) :
    List Msg × Bool :=
  if loading then (msgs, false)
  else if trimWs input = [] then (msgs, false)
  else (msgs ++ [{ role := .user, content := input, citations := none },
    { role := .assistant, content := [], citations := some (.jarr []) }], true)

/-! ## Ingestion progress tracking (FileUpload)

The repository has two FileUpload implementations in one source file.  The
second (lines 150-374) polls `/ingestion/status` with two `setInterval`
loops; the first (lines 1-149) reschedules `pollProgress` with `setTimeout`
only while the status is `processing` or `indexing`. -/

structure PollResponse where
  status : List Nat
  message : List Nat
  percent : Option Int
  progress : Option Int

structure UploadUIState where
  progress : Int
  progressMessage : List Nat
  isGraphBuilding : Bool

/-- JavaScript `a || b` on strings: the empty string is falsy. -/
def jsOrElse (s d : List Nat) : List Nat := if s = [] then d else s

/-- One poll of the `pollIngestionStatus` interval (FileUpload.tsx second
implementation, lines 183-206).  `data.progress ?? data.percent ?? 0`
defaults to 0 when both fields are absent. -/
def pollIngestionStep (st : UploadUIState) (d : PollResponse) : UploadUIState :=
  if d.status = str "processing" ∨ d.status = str "chunking" then
    { st with progress := d.progress.getD (d.percent.getD 0),
              progressMessage := d.message }
  else if d.status = str "graph_building" then
    { progress := d.progress.getD (d.percent.getD 0),
      progressMessage := jsOrElse d.message (str "Building Knowledge Graph..."),
      isGraphBuilding := true }
  else if d.status = str "complete" ∨ d.status = str "ready" then
    { progress := 100, progressMessage := str "Complete!", isGraphBuilding := false }
  else st

/-- One poll of the `pollUntilReady` interval (FileUpload.tsx second
implementation, lines 242-269); the boolean reports whether the loop
cleared its own interval (which happens only on status `ready`). -/
def pollUntilReadyStep (st : UploadUIState) (d : PollResponse) : UploadUIState × Bool :=
  if d.status = str "graph_building" then
    ({ progress := d.progress.getD (d.percent.getD 50),
       progressMessage := jsOrElse d.message (str "Building Knowledge Graph..."),
       isGraphBuilding := true }, false)
  else if d.status = str "ready" then
    ({ progress := 100, progressMessage := str "Complete!", isGraphBuilding := false }, true)
  else (st, false)

/-- The `pollUntilReady` loop: one poll per time unit, stopped by its own
`clearInterval` or by the 300-unit `setTimeout`.  `resp k` is the response
of the k-th poll; the result is the final UI state, the number of polls
issued, and whether the stop came from observing `ready`. -/
def runPollUntilReady (resp : Nat → PollResponse) :
    Nat → UploadUIState → Nat → UploadUIState × Nat × Bool
  | 0, st, polls => (st, polls, false)
  | fuel + 1, st, polls =>
    if (pollUntilReadyStep st (resp polls)).2 then
      ((pollUntilReadyStep st (resp polls)).1, polls + 1, true)
    else runPollUntilReady resp fuel (pollUntilReadyStep st (resp polls)).1 (polls + 1)

def pollUntilReadyRun (resp : Nat → PollResponse) (st : UploadUIState) :
    UploadUIState × Nat × Bool :=
  runPollUntilReady resp 300 st 0

/-- Plain iteration of the poll step with no stopping, used to express that
a timed-out loop retains the last observed state. -/
def pollFold (resp : Nat → PollResponse) : Nat → UploadUIState → Nat → UploadUIState
  | 0, st, _ => st
  | fuel + 1, st, polls => pollFold resp fuel (pollUntilReadyStep st (resp polls)).1 (polls + 1)

/-- Rescheduling condition of `pollProgress` in the first FileUpload
implementation (lines 19-33): it re-arms its `setTimeout` only while the
status is `processing` or `indexing`; there is no overall timeout. -/
def pollProgressContinues (d : PollResponse) : Bool :=
  decide (d.status = str "processing" ∨ d.status = str "indexing")

/-! ## The uploadFile control flow (job creation and polling start) -/

structure UploadFlowState where
  pollActive : Bool
  polls : Nat
  status : Option (List Nat)
  uploading : Bool

/-- `uploadFile` (second implementation, lines 215-287) starts
`pollIngestionStatus()` before issuing the upload request. -/
def uploadFileStart : UploadFlowState :=
  { pollActive := true, polls := 0, status := none, uploading := true }

/-- One elapsed time unit while the upload request is pending: the
`setInterval` poll fires whenever the loop is active. -/
def uploadTick (st : UploadFlowState) : UploadFlowState :=
  if st.pollActive then { st with polls := st.polls + 1 } else st

/-- The failure branch of `uploadFile` (`else` of `res.ok`, lines 277-281):
stop polling, set the error status, clear the uploading flag. -/
def uploadFileFail (st : UploadFlowState) : UploadFlowState :=
  { st with pollActive := false,
            status := some (str "error:Upload failed"),
            uploading := false }

/-- A failed `uploadFile` submission whose upload request took `n` time
units before resolving. -/
def uploadFileFailFlow (n : Nat) : UploadFlowState :=
  uploadFileFail (uploadTick^[n] uploadFileStart)

/-- Outcome of `handleUpload` in the first FileUpload implementation
(lines 35-70): polling begins only after the job-creation call succeeded;
on failure the error is shown and progress is cleared. -/
structure HandleUploadOutcome where
  errorMsg : Option (List Nat)
  progressShown : Bool
  pollingStarted : Bool

def handleUploadOutcome (ok : Bool) : HandleUploadOutcome :=
  if ok then { errorMsg := none, progressShown := true, pollingStarted := true }
  else { errorMsg := some (str "Upload failed"), progressShown := false,
         pollingStarted := false }

/-! ## Helper lemmas about last-element updates -/

theorem setLast_length (f : Msg → Msg) (msgs : List Msg) :
    (setLast f msgs).length = msgs.length := by
  induction msgs with
  | nil => rfl
  | cons m rest ih =>
    cases rest with
    | nil => rfl
    | cons m2 r2 => simpa [setLast] using ih

theorem setLast_dropLast (f : Msg → Msg) (msgs : List Msg) :
    (setLast f msgs).dropLast = msgs.dropLast := by
  induction msgs with
  | nil => rfl
  | cons m rest ih =>
    cases rest with
    | nil => rfl
    | cons m2 r2 =>
      simp only [setLast]
      rw [List.dropLast_cons_of_ne_nil (by
        have := setLast_length f (m2 :: r2)
        intro hnil
        rw [hnil] at this
        simp at this)]
      rw [List.dropLast_cons_of_ne_nil (by simp)]
      simpa using ih

theorem setLast_getLastD (f : Msg → Msg) (msgs : List Msg) (d : Msg)
    (h : msgs ≠ []) : (setLast f msgs).getLastD d = f (msgs.getLastD d) := by
  induction msgs generalizing d with
  | nil => exact absurd rfl h
  | cons m rest ih =>
    cases rest with
    | nil => rfl
    | cons m2 r2 =>
      simp only [setLast]
      rw [List.getLastD_cons, List.getLastD_cons]
      exact ih m (by simp)

theorem dropLast_append_getLastD (msgs : List Msg) (d : Msg) (h : msgs ≠ []) :
    msgs.dropLast ++ [msgs.getLastD d] = msgs := by
  induction msgs generalizing d with
  | nil => exact absurd rfl h
  | cons m rest ih =>
    cases rest with
    | nil => rfl
    | cons m2 r2 =>
      rw [List.dropLast_cons_of_ne_nil (by simp), List.getLastD_cons, List.cons_append,
        ih m (by simp)]

theorem setLast_eq (f : Msg → Msg) (msgs : List Msg) (d : Msg) (h : msgs ≠ []) :
    setLast f msgs = msgs.dropLast ++ [f (msgs.getLastD d)] := by
  induction msgs generalizing d with
  | nil => exact absurd rfl h
  | cons m rest ih =>
    cases rest with
    | nil => rfl
    | cons m2 r2 =>
      simp only [setLast]
      rw [List.dropLast_cons_of_ne_nil (by simp), List.getLastD_cons, List.cons_append]
      rw [ih m (by simp)]

theorem setLast_self (f : Msg → Msg) (msgs : List Msg) (d : Msg) (h : msgs ≠ [])
    (hf : f (msgs.getLastD d) = msgs.getLastD d) : setLast f msgs = msgs := by
  rw [setLast_eq f msgs d h, hf, dropLast_append_getLastD msgs d h]

/-! ## Session fold lemmas -/

/-- Concatenation of the token texts of an event sequence, in emission
order (a citations event contributes nothing). -/
def tokenConcat (evs : List ProtocolEvent) : List Nat :=
  (evs.map ProtocolEvent.text).flatten

/-- The citation payload carried by the last citations event, if any. -/
def lastCit (j : Json) (evs : List ProtocolEvent) : Json :=
  evs.foldl (fun a e => match e with | .citations v => v | _ => a) j

theorem sendMessageApply_ne_nil (msgs : List Msg) (e : ProtocolEvent)
    (h : msgs ≠ []) : sendMessageApply msgs e ≠ [] := by
  intro hnil
  cases e with
  | token v =>
    have := setLast_length (fun m => { m with content := m.content ++ tokenText v }) msgs
    rw [show sendMessageApply msgs (.token v) =
      setLast (fun m => { m with content := m.content ++ tokenText v }) msgs from rfl] at hnil
    rw [hnil] at this
    exact h (List.length_eq_zero.mp this.symm)
  | citations j =>
    have := setLast_length (fun m => { m with citations := some j }) msgs
    rw [show sendMessageApply msgs (.citations j) =
      setLast (fun m => { m with citations := some j }) msgs from rfl] at hnil
    rw [hnil] at this
    exact h (List.length_eq_zero.mp this.symm)

theorem sendMessageFold_content (evs : List ProtocolEvent) : ∀ (msgs : List Msg) (d : Msg),
    msgs ≠ [] →
    ((sendMessageFold msgs evs).getLastD d).content =
      (msgs.getLastD d).content ++ tokenConcat evs := by
  induction evs with
  | nil => intro msgs d h; simp [sendMessageFold, tokenConcat]
  | cons e evs ih =>
    intro msgs d h
    have hstep : sendMessageFold msgs (e :: evs) =
        sendMessageFold (sendMessageApply msgs e) evs := rfl
    rw [hstep, ih (sendMessageApply msgs e) d (sendMessageApply_ne_nil msgs e h)]
    cases e with
    | token v =>
      rw [show sendMessageApply msgs (.token v) =
        setLast (fun m => { m with content := m.content ++ tokenText v }) msgs from rfl]
      rw [setLast_getLastD _ msgs d h]
      simp [tokenConcat, ProtocolEvent.text]
    | citations j =>
      rw [show sendMessageApply msgs (.citations j) =
        setLast (fun m => { m with citations := some j }) msgs from rfl]
      rw [setLast_getLastD _ msgs d h]
      simp [tokenConcat, ProtocolEvent.text]

theorem sendMessageFold_length (evs : List ProtocolEvent) : ∀ msgs : List Msg,
    (sendMessageFold msgs evs).length = msgs.length := by
  induction evs with
  | nil => intro msgs; rfl
  | cons e evs ih =>
    intro msgs
    rw [show sendMessageFold msgs (e :: evs) =
      sendMessageFold (sendMessageApply msgs e) evs from rfl, ih]
    cases e with
    | token v => exact setLast_length _ msgs
    | citations j => exact setLast_length _ msgs

/-- Invariant of the handleSubmit fold when the last message is the open
assistant turn whose content mirrors `accumulatedText`. -/
theorem handleSubmitFold_inv (evs : List ProtocolEvent) :
    ∀ (s : HandleSubmitState) (d : Msg), s.msgs ≠ [] →
    (s.msgs.getLastD d).role = .assistant →
    (s.msgs.getLastD d).content = s.acc →
    (handleSubmitFold s evs).msgs ≠ [] ∧
    (((handleSubmitFold s evs).msgs).getLastD d).role = .assistant ∧
    (handleSubmitFold s evs).acc = s.acc ++ tokenConcat evs ∧
    (((handleSubmitFold s evs).msgs).getLastD d).content = s.acc ++ tokenConcat evs := by
  induction evs with
  | nil =>
    intro s d h hrole hcont
    refine ⟨h, hrole, by simp [handleSubmitFold, tokenConcat], by
      simpa [handleSubmitFold, tokenConcat] using hcont⟩
  | cons e evs ih =>
    intro s d h hrole hcont
    have hstep : handleSubmitFold s (e :: evs) =
        handleSubmitFold (handleSubmitApply s e) evs := rfl
    cases e with
    | token v =>
      have happly : handleSubmitApply s (.token v) =
          { s with
            acc := s.acc ++ tokenText v,
            msgs := setLast (fun m =>
              if m.role = .assistant then { m with content := s.acc ++ tokenText v }
              else m) s.msgs } := rfl
      have hne : (handleSubmitApply s (.token v)).msgs ≠ [] := by
        rw [happly]
        intro hnil
        have := setLast_length (fun m =>
          if m.role = .assistant then { m with content := s.acc ++ tokenText v }
          else m) s.msgs
        simp only at hnil
        rw [hnil] at this
        exact h (List.length_eq_zero.mp this.symm)
      have hlast : ((handleSubmitApply s (.token v)).msgs).getLastD d =
          { s.msgs.getLastD d with content := s.acc ++ tokenText v } := by
        rw [happly]
        simp only
        rw [setLast_getLastD _ s.msgs d h, if_pos hrole]
      have := ih (handleSubmitApply s (.token v)) d hne
        (by rw [hlast]; exact hrole)
        (by rw [hlast, happly])
      rw [hstep]
      refine ⟨this.1, this.2.1, ?_, ?_⟩
      · rw [this.2.2.1, happly]
        simp [tokenConcat, ProtocolEvent.text, List.append_assoc]
      · rw [this.2.2.2, happly]
        simp [tokenConcat, ProtocolEvent.text, List.append_assoc]
    | citations j =>
      have happly : handleSubmitApply s (.citations j) = { s with accCit := j } := rfl
      have := ih (handleSubmitApply s (.citations j)) d
        (by rw [happly]; exact h)
        (by rw [happly]; exact hrole)
        (by rw [happly]; exact hcont)
      rw [hstep]
      refine ⟨this.1, this.2.1, ?_, ?_⟩
      · rw [this.2.2.1, happly]
        simp [tokenConcat, ProtocolEvent.text]
      · rw [this.2.2.2, happly]
        simp [tokenConcat, ProtocolEvent.text]

/-- During the stream, `handleSubmit` never writes a citation list into any
message, and never changes any message's role; `accumulatedCitations`
always holds the payload of the last citations event. -/
theorem handleSubmitFold_frame (evs : List ProtocolEvent) :
    ∀ (s : HandleSubmitState) (d : Msg), s.msgs ≠ [] →
    (handleSubmitFold s evs).msgs ≠ [] ∧
    (((handleSubmitFold s evs).msgs).getLastD d).citations =
      (s.msgs.getLastD d).citations ∧
    (((handleSubmitFold s evs).msgs).getLastD d).role = (s.msgs.getLastD d).role ∧
    (handleSubmitFold s evs).accCit = lastCit s.accCit evs := by
  induction evs with
  | nil => intro s d h; exact ⟨h, rfl, rfl, rfl⟩
  | cons e evs ih =>
    intro s d h
    have hstep : handleSubmitFold s (e :: evs) =
        handleSubmitFold (handleSubmitApply s e) evs := rfl
    cases e with
    | token v =>
      have hne : (handleSubmitApply s (.token v)).msgs ≠ [] := by
        show setLast _ s.msgs ≠ []
        intro hnil
        have := setLast_length (fun m =>
          if m.role = .assistant then { m with content := s.acc ++ tokenText v }
          else m) s.msgs
        rw [hnil] at this
        exact h (List.length_eq_zero.mp this.symm)
      have hlast : ((handleSubmitApply s (.token v)).msgs).getLastD d =
          (if (s.msgs.getLastD d).role = .assistant
           then { s.msgs.getLastD d with content := s.acc ++ tokenText v }
           else s.msgs.getLastD d) := by
        show (setLast _ s.msgs).getLastD d = _
        rw [setLast_getLastD _ s.msgs d h]
      have := ih (handleSubmitApply s (.token v)) d hne
      rw [hstep]
      refine ⟨this.1, ?_, ?_, this.2.2.2⟩
      · rw [this.2.1, hlast]
        by_cases hr : (s.msgs.getLastD d).role = .assistant
        · rw [if_pos hr]
        · rw [if_neg hr]
      · rw [this.2.2.1, hlast]
        by_cases hr : (s.msgs.getLastD d).role = .assistant
        · rw [if_pos hr]
        · rw [if_neg hr]
    | citations j =>
      have := ih (handleSubmitApply s (.citations j)) d h
      rw [hstep]
      exact ⟨this.1, this.2.1, this.2.2.1, this.2.2.2⟩

/-! ## Poll loop lemmas -/

theorem pollUntilReadyStep_stop (st : UploadUIState) (d : PollResponse) :
    (pollUntilReadyStep st d).2 = true ↔ d.status = str "ready" := by
  unfold pollUntilReadyStep
  by_cases h1 : d.status = str "graph_building"
  · rw [if_pos h1]
    simp only
    constructor
    · intro hf; exact absurd hf (by simp)
    · intro hr; rw [h1] at hr; exact absurd hr (by decide)
  · rw [if_neg h1]
    by_cases h2 : d.status = str "ready"
    · rw [if_pos h2]; simpa using h2
    · rw [if_neg h2]; simpa using h2

theorem runPollUntilReady_ready (resp : Nat → PollResponse) :
    ∀ (k fuel : Nat) (st : UploadUIState) (polls : Nat), k < fuel →
    (resp (polls + k)).status = str "ready" →
    (∀ j, j < k → (resp (polls + j)).status ≠ str "ready") →
    (runPollUntilReady resp fuel st polls).2.1 = polls + k + 1 ∧
    (runPollUntilReady resp fuel st polls).2.2 = true := by
  intro k
  induction k with
  | zero =>
    intro fuel st polls hk hready hmin
    match fuel, hk with
    | fuel + 1, _ =>
      have hstop : (pollUntilReadyStep st (resp polls)).2 = true := by
        rw [pollUntilReadyStep_stop]; simpa using hready
      simp [runPollUntilReady, hstop]
  | succ k ih =>
    intro fuel st polls hk hready hmin
    match fuel, hk with
    | fuel + 1, hk =>
      have hnr : (resp polls).status ≠ str "ready" := by
        have := hmin 0 (Nat.succ_pos k); simpa using this
      have hstop : (pollUntilReadyStep st (resp polls)).2 = false := by
        rcases Bool.eq_false_or_eq_true (pollUntilReadyStep st (resp polls)).2 with h | h
        · exact absurd ((pollUntilReadyStep_stop st (resp polls)).mp h) hnr
        · exact h
      have hrec := ih fuel (pollUntilReadyStep st (resp polls)).1 (polls + 1)
        (Nat.lt_of_succ_lt_succ hk)
        (by rw [show polls + 1 + k = polls + (k + 1) by omega]; exact hready)
        (by intro j hj
            rw [show polls + 1 + j = polls + (j + 1) by omega]
            exact hmin (j + 1) (Nat.succ_lt_succ hj))
      have hunfold : runPollUntilReady resp (fuel + 1) st polls =
          runPollUntilReady resp fuel (pollUntilReadyStep st (resp polls)).1 (polls + 1) := by
        simp [runPollUntilReady, hstop]
      rw [hunfold]
      exact ⟨by rw [hrec.1]; omega, hrec.2⟩

theorem runPollUntilReady_timeout (resp : Nat → PollResponse) :
    ∀ (fuel : Nat) (st : UploadUIState) (polls : Nat),
    (∀ j, j < fuel → (resp (polls + j)).status ≠ str "ready") →
    runPollUntilReady resp fuel st polls = (pollFold resp fuel st polls, polls + fuel, false) := by
  intro fuel
  induction fuel with
  | zero => intro st polls hmin; simp [runPollUntilReady, pollFold]
  | succ fuel ih =>
    intro st polls hmin
    have hnr : (resp polls).status ≠ str "ready" := by
      have := hmin 0 (Nat.succ_pos fuel); simpa using this
    have hstop : (pollUntilReadyStep st (resp polls)).2 = false := by
      rcases Bool.eq_false_or_eq_true (pollUntilReadyStep st (resp polls)).2 with h | h
      · exact absurd ((pollUntilReadyStep_stop st (resp polls)).mp h) hnr
      · exact h
    have hunfold : runPollUntilReady resp (fuel + 1) st polls =
        runPollUntilReady resp fuel (pollUntilReadyStep st (resp polls)).1 (polls + 1) := by
      simp [runPollUntilReady, hstop]
    rw [hunfold, ih (pollUntilReadyStep st (resp polls)).1 (polls + 1)
      (by intro j hj
          rw [show polls + 1 + j = polls + (j + 1) by omega]
          exact hmin (j + 1) (Nat.succ_lt_succ hj))]
    have harith : polls + 1 + fuel = polls + (fuel + 1) := by omega
    rw [harith]
    rfl

theorem uploadTick_iterate (n : Nat) :
    uploadTick^[n] uploadFileStart =
      { pollActive := true, polls := n, status := none, uploading := true } := by
  induction n with
  | zero => rfl
  | succ n ih =>
    rw [Function.iterate_succ_apply', ih]
    rfl

/-! ## Concrete fixtures for the claim theorems -/

/-- A default message, used only as the `getLastD` fallback. -/
def dfltMsg : Msg := { role := Role.user, content := [], citations := none }

/-- A poll endpoint that reports `error` forever. -/
def respErr : Nat → PollResponse :=
  fun _ => { status := str "error", message := str "failed", percent := none, progress := none }

/-- A poll endpoint that reports `ready` immediately. -/
def respReady : Nat → PollResponse :=
  fun _ => { status := str "ready", message := str "done", percent := none, progress := none }

def c4st : UploadUIState := { progress := 0, progressMessage := [], isGraphBuilding := false }

/-! ## Claim theorems -/

/-- C1 (counterexample): the unbuffered consumer `handleSubmit` is not
invariant under re-chunking.  The same byte stream delivered as one chunk
yields the token event, but split inside the `data: ` marker it yields no
event at all. -/
theorem C1_counterexample :
    (List.flatten [strBytes "data: \x7b\"token\":\"hi\"\x7d\n\n"] =
      List.flatten [strBytes "da", strBytes "ta: \x7b\"token\":\"hi\"\x7d\n\n"]) ∧
    handleSubmitEvents [strBytes "data: \x7b\"token\":\"hi\"\x7d\n\n"] =
      [ProtocolEvent.token (Json.jstr (str "hi"))] ∧
    handleSubmitEvents [strBytes "da", strBytes "ta: \x7b\"token\":\"hi\"\x7d\n\n"] = [] :=
  ⟨by decide, rfl, rfl⟩

/-- C1 (amended): the buffered consumer `sendMessage` yields an identical
ordered event sequence for any two chunkings of the same byte stream,
including cuts inside a multi-byte character, a field name, or the
blank-line separator; the unbuffered consumer `handleSubmit` does not. -/
theorem C1_rechunking_buffered (c1 c2 : List (List Nat))
    (h : c1.flatten = c2.flatten) :
    sendMessageEvents c1 = sendMessageEvents c2 := by
  rw [sendMessageEvents_eq, sendMessageEvents_eq, h]

/-- C1 witness: a concrete stream cut in the middle of the two UTF-8 bytes
of the character `é` (byte index 17 falls inside it). -/
theorem C1_rechunking_buffered_witness :
    (List.flatten [strBytes "data: \x7b\"token\":\"é\"\x7d\n\n"] =
      List.flatten [(strBytes "data: \x7b\"token\":\"é\"\x7d\n\n").take 17,
        (strBytes "data: \x7b\"token\":\"é\"\x7d\n\n").drop 17]) ∧
    sendMessageEvents [strBytes "data: \x7b\"token\":\"é\"\x7d\n\n"] =
      sendMessageEvents [(strBytes "data: \x7b\"token\":\"é\"\x7d\n\n").take 17,
        (strBytes "data: \x7b\"token\":\"é\"\x7d\n\n").drop 17] :=
  ⟨by simp, C1_rechunking_buffered _ _ (by simp)⟩

/-- C2 (counterexample): the failure handler of `handleSubmit` appends a
second assistant Turn carrying the diagnostic instead of replacing the open
empty Turn; the Turn count grows from 1 to 2. -/
theorem C2_counterexample :
    handleSubmitOnError [{ role := Role.assistant, content := [], citations := none }] =
      [{ role := Role.assistant, content := [], citations := none },
       { role := Role.assistant, content := handleSubmitDiag, citations := none }] ∧
    (handleSubmitOnError
      [{ role := Role.assistant, content := [], citations := none }]).length = 2 ∧
    (2 : Nat) ≠ 1 :=
  ⟨rfl, rfl, by decide⟩

/-- C2 (amended): in `sendMessage` the failure handler replaces the last
Turn's content with the fixed diagnostic exactly when it is an assistant
Turn whose content is still empty (partial content is kept) and never
changes the Turn count; in `handleSubmit` the failure handler instead
always appends a fresh assistant Turn with its diagnostic and leaves the
open Turn untouched. -/
theorem C2_error_handling :
    (∀ (msgs : List Msg) (d : Msg), msgs ≠ [] →
      sendMessageOnError msgs =
        msgs.dropLast ++
          [if (msgs.getLastD d).role = Role.assistant ∧ (msgs.getLastD d).content = []
           then { msgs.getLastD d with content := sendMessageDiag }
           else msgs.getLastD d] ∧
      (sendMessageOnError msgs).length = msgs.length) ∧
    (∀ msgs : List Msg, handleSubmitOnError msgs =
      msgs ++ [{ role := Role.assistant, content := handleSubmitDiag, citations := none }]) := by
  constructor
  · intro msgs d h
    exact ⟨setLast_eq _ msgs d h, setLast_length _ msgs⟩
  · intro msgs
    rfl

/-- C2 witness: the handler applied to a singleton open assistant Turn. -/
theorem C2_error_handling_witness :
    ([{ role := Role.assistant, content := [], citations := none }] ≠ ([] : List Msg)) ∧
    (sendMessageOnError [{ role := Role.assistant, content := [], citations := none }] =
      ([{ role := Role.assistant, content := [], citations := none }] : List Msg).dropLast ++
        [if (([{ role := Role.assistant, content := [], citations := none }] :
              List Msg).getLastD dfltMsg).role = Role.assistant ∧
            (([{ role := Role.assistant, content := [], citations := none }] :
              List Msg).getLastD dfltMsg).content = []
         then { ([{ role := Role.assistant, content := [], citations := none }] :
              List Msg).getLastD dfltMsg with content := sendMessageDiag }
         else ([{ role := Role.assistant, content := [], citations := none }] :
              List Msg).getLastD dfltMsg] ∧
      (sendMessageOnError
        [{ role := Role.assistant, content := [], citations := none }]).length =
        ([{ role := Role.assistant, content := [], citations := none }] : List Msg).length) :=
  ⟨by simp,
   C2_error_handling.1 [{ role := Role.assistant, content := [], citations := none }]
     dfltMsg (by simp)⟩

/-- C3 (counterexample): a poll response with status `chunking` and neither
`percent` nor `progress` resets the displayed percent to 0 instead of
keeping the prior value 42. -/
theorem C3_counterexample :
    (pollIngestionStep { progress := 42, progressMessage := [], isGraphBuilding := false }
      { status := str "chunking", message := str "m", percent := none,
        progress := none }).progress = 0 ∧
    (0 : Int) ≠ 42 :=
  ⟨rfl, by decide⟩

/-- C3 (amended): for progress-updating statuses the displayed percent is
`progress` if present, else `percent`, else the default 0 (continuous loop)
or 50 (post-upload loop) — not the prior poll's value; terminal statuses
force 100; any other status leaves the percent unchanged. -/
theorem C3_percent_sourcing (st : UploadUIState) (d : PollResponse) :
    (pollIngestionStep st d).progress =
      (if d.status = str "processing" ∨ d.status = str "chunking" ∨
          d.status = str "graph_building"
       then d.progress.getD (d.percent.getD 0)
       else if d.status = str "complete" ∨ d.status = str "ready" then 100
       else st.progress) ∧
    ((pollUntilReadyStep st d).1).progress =
      (if d.status = str "graph_building" then d.progress.getD (d.percent.getD 50)
       else if d.status = str "ready" then 100
       else st.progress) := by
  constructor
  · unfold pollIngestionStep
    by_cases h1 : d.status = str "processing" ∨ d.status = str "chunking"
    · rw [if_pos h1, if_pos (h1.elim Or.inl (fun h => Or.inr (Or.inl h)))]
    · rw [if_neg h1]
      by_cases h2 : d.status = str "graph_building"
      · rw [if_pos h2, if_pos (Or.inr (Or.inr h2))]
      · rw [if_neg h2]
        have h12 : ¬ (d.status = str "processing" ∨ d.status = str "chunking" ∨
            d.status = str "graph_building") := by
          intro h
          rcases h with h | h | h
          · exact h1 (Or.inl h)
          · exact h1 (Or.inr h)
          · exact h2 h
        rw [if_neg h12]
        by_cases h3 : d.status = str "complete" ∨ d.status = str "ready"
        · rw [if_pos h3, if_pos h3]
        · rw [if_neg h3, if_neg h3]
  · unfold pollUntilReadyStep
    by_cases h1 : d.status = str "graph_building"
    · rw [if_pos h1, if_pos h1]
    · rw [if_neg h1, if_neg h1]
      by_cases h2 : d.status = str "ready"
      · rw [if_pos h2, if_pos h2]
      · rw [if_neg h2, if_neg h2]

/-- C4 (counterexample): with every poll answering `error`, the
`pollUntilReady` loop still issues all 300 polls before the timeout stops
it — an `error` status does not stop the loop after its first poll. -/
theorem C4_counterexample :
    (pollUntilReadyRun respErr c4st).2.1 = 300 ∧
    (pollUntilReadyRun respErr c4st).2.2 = false ∧
    (300 : Nat) ≠ 1 :=
  ⟨rfl, rfl, by decide⟩

/-- C4 (amended): the `pollUntilReady` loop stops at the first poll that
observes `ready` (issuing exactly k+1 polls when `ready` first appears at
poll k), or after exactly 300 polls when no poll observes `ready`; an
`error` status does not stop it, and on timeout the state is simply the
fold of all observed responses — the last observed phase is retained,
never forced to an error. -/
theorem C4_stop_conditions (resp : Nat → PollResponse) (st : UploadUIState) :
    (∀ k : Nat, k < 300 → (resp k).status = str "ready" →
      (∀ j, j < k → (resp j).status ≠ str "ready") →
      (pollUntilReadyRun resp st).2.1 = k + 1 ∧
      (pollUntilReadyRun resp st).2.2 = true) ∧
    ((∀ j, j < 300 → (resp j).status ≠ str "ready") →
      pollUntilReadyRun resp st = (pollFold resp 300 st 0, 300, false)) := by
  constructor
  · intro k hk hr hmin
    have h := runPollUntilReady_ready resp k 300 st 0 hk (by simpa using hr)
      (by intro j hj; simpa using hmin j hj)
    constructor
    · rw [show k + 1 = 0 + k + 1 by omega]
      exact h.1
    · exact h.2
  · intro hmin
    have h := runPollUntilReady_timeout resp 300 st 0 (by intro j hj; simpa using hmin j hj)
    simpa [pollUntilReadyRun] using h

/-- C4 witness: with `ready` on the very first poll the loop stops after
one poll; with constant `error` responses it runs to the 300-poll timeout. -/
theorem C4_stop_conditions_witness :
    ((0 : Nat) < 300 ∧ (respReady 0).status = str "ready") ∧
    ((pollUntilReadyRun respReady c4st).2.1 = 0 + 1 ∧
     (pollUntilReadyRun respReady c4st).2.2 = true) ∧
    pollUntilReadyRun respErr c4st = (pollFold respErr 300 c4st 0, 300, false) :=
  ⟨⟨by decide, rfl⟩,
   (C4_stop_conditions respReady c4st).1 0 (by decide) rfl
     (fun j hj => absurd hj (by omega)),
   (C4_stop_conditions respErr c4st).2 (fun j hj => (by decide : str "error" ≠ str "ready"))⟩

/-- C5 (counterexample): a failed `uploadFile` submission whose upload
request took two time units issued two status polls before failing — the
claim that no status poll is ever issued for a failed submission is false. -/
theorem C5_counterexample :
    (uploadFileFailFlow 2).polls = 2 ∧
    (2 : Nat) ≠ 0 ∧
    (uploadFileFailFlow 2).status = some (str "error:Upload failed") ∧
    (uploadFileFailFlow 2).pollActive = false :=
  ⟨rfl, by decide, rfl, rfl⟩

/-- C5 (amended): when the job-creation call of `uploadFile` fails, the
error status is set and all polling stops; but the status polling loop is
started when the upload begins, so an upload that takes n time units
issues n polls before the failure.  In the other implementation
(`handleUpload`) polling indeed starts only after job creation succeeds. -/
theorem C5_failure_flow (n : Nat) :
    uploadFileFailFlow n =
      { pollActive := false, polls := n, status := some (str "error:Upload failed"),
        uploading := false } ∧
    handleUploadOutcome false =
      { errorMsg := some (str "Upload failed"), progressShown := false,
        pollingStarted := false } ∧
    handleUploadOutcome true =
      { errorMsg := none, progressShown := true, pollingStarted := true } := by
  refine ⟨?_, rfl, rfl⟩
  unfold uploadFileFailFlow
  rw [uploadTick_iterate]
  rfl

/-- C6 (counterexample): a citations frame whose payload is not JSON
terminates the stream in `sendMessage`: the following well-formed token
frame produces no event, although alone it decodes fine. -/
theorem C6_counterexample :
    sendMessageEvents
      [strBytes "event: citations\ndata: \x7bbad\x7d\n\ndata: \x7b\"token\":\"hi\"\x7d\n\n"] =
      [] ∧
    sendMessageEvents [strBytes "data: \x7b\"token\":\"hi\"\x7d\n\n"] =
      [ProtocolEvent.token (Json.jstr (str "hi"))] :=
  ⟨rfl, rfl⟩

/-- C6 (amended): a data-only frame whose payload fails to parse is dropped
and processing continues, and a malformed `data: ` line in `handleSubmit`
likewise produces nothing; but a citations frame whose `data:` line fails
to parse aborts the `sendMessage` stream (its `JSON.parse` is outside the
try/catch), so subsequent frames are not processed. -/
theorem C6_malformed_frames :
    (∀ (f : List Nat) (fs : List (List Nat)),
      dataMarker.isPrefixOf (trimWs f) = true →
      citMarker.isPrefixOf (trimWs f) = false →
      jsonParse (replaceFirst dataMarker f) = none →
      processFrames (f :: fs) = processFrames fs) ∧
    (∀ (f : List Nat) (fs : List (List Nat)) (dl : List Nat),
      citMarker.isPrefixOf (trimWs f) = true →
      (splitNl f)[1]? = some dl →
      dataMarker.isPrefixOf dl = true →
      jsonParse (replaceFirst dataMarker dl) = none →
      processFrames (f :: fs) = ([], true)) ∧
    (∀ line : List Nat,
      dataMarker.isPrefixOf line = true →
      jsonParse (replaceFirst dataMarker line) = none →
      lineEvents line = []) := by
  refine ⟨?_, ?_, ?_⟩
  · intro f fs h1 h2 h3
    have hcf : classifyFrame f = .ok none := by
      unfold classifyFrame
      rw [if_neg (by simp [h2]), if_pos (by simp [h1]), h3]
    exact processFrames_skip f fs hcf
  · intro f fs dl h1 h2 h3 h4
    have hcf : classifyFrame f = .error () := by
      unfold classifyFrame
      rw [if_pos (by simp [h1]), h2]
      simp only
      rw [if_pos (by simp [h3]), h4]
    exact processFrames_err f fs () hcf
  · intro line h1 h2
    unfold lineEvents
    rw [if_pos (by simp [h1]), h2]

/-- C6 witness: concrete malformed payloads exercising all three parts. -/
theorem C6_malformed_frames_witness :
    jsonParse (replaceFirst dataMarker (strBytes "data: \x7bnope\x7d")) = none ∧
    processFrames [strBytes "data: \x7bnope\x7d", strBytes "data: \x7b\"token\":\"x\"\x7d"] =
      processFrames [strBytes "data: \x7b\"token\":\"x\"\x7d"] ∧
    processFrames [strBytes "event: citations\ndata: \x7bnope\x7d"] = ([], true) ∧
    lineEvents (strBytes "data: \x7bnope\x7d") = [] :=
  ⟨rfl,
   C6_malformed_frames.1 (strBytes "data: \x7bnope\x7d")
     [strBytes "data: \x7b\"token\":\"x\"\x7d"] rfl rfl rfl,
   C6_malformed_frames.2.1 (strBytes "event: citations\ndata: \x7bnope\x7d") []
     (strBytes "data: \x7bnope\x7d") rfl rfl rfl rfl,
   C6_malformed_frames.2.2 (strBytes "data: \x7bnope\x7d") rfl rfl⟩

/-- C7: for both consumers, the concatenation of all Token text values in
emission order equals the final content of the open assistant Turn
(whose content starts out equal to the accumulated text — empty at the
start of an ask call). -/
theorem C7_token_concat :
    (∀ (msgs : List Msg) (evs : List ProtocolEvent) (d : Msg), msgs ≠ [] →
      ((sendMessageFold msgs evs).getLastD d).content =
        (msgs.getLastD d).content ++ tokenConcat evs) ∧
    (∀ (s : HandleSubmitState) (evs : List ProtocolEvent) (d : Msg),
      s.msgs ≠ [] → (s.msgs.getLastD d).role = Role.assistant →
      (s.msgs.getLastD d).content = s.acc →
      (((handleSubmitFold s evs).msgs).getLastD d).content = s.acc ++ tokenConcat evs) :=
  ⟨fun msgs evs d h => sendMessageFold_content evs msgs d h,
   fun s evs d h hr hc => (handleSubmitFold_inv evs s d h hr hc).2.2.2⟩

/-- C7 witness: a fresh open assistant Turn receiving two tokens around a
citations frame. -/
theorem C7_token_concat_witness :
    ([{ role := Role.assistant, content := [], citations := none }] ≠ ([] : List Msg)) ∧
    ((sendMessageFold [{ role := Role.assistant, content := [], citations := none }]
        [ProtocolEvent.token (Json.jstr (str "ab")),
         ProtocolEvent.citations (Json.jarr []),
         ProtocolEvent.token (Json.jstr (str "c"))]).getLastD dfltMsg).content =
      (([{ role := Role.assistant, content := [], citations := none }] :
        List Msg).getLastD dfltMsg).content ++
        tokenConcat [ProtocolEvent.token (Json.jstr (str "ab")),
          ProtocolEvent.citations (Json.jarr []),
          ProtocolEvent.token (Json.jstr (str "c"))] :=
  ⟨by simp,
   C7_token_concat.1 [{ role := Role.assistant, content := [], citations := none }]
     [ProtocolEvent.token (Json.jstr (str "ab")),
      ProtocolEvent.citations (Json.jarr []),
      ProtocolEvent.token (Json.jstr (str "c"))] dfltMsg (by simp)⟩

/-- C8 (counterexample): in `sendMessage` every citations frame is applied:
after the first frame the Turn's list is the first payload, after a second
frame it is the second payload — not applied at most once. -/
theorem C8_counterexample :
    ((sendMessageFold [{ role := Role.assistant, content := [], citations := some (Json.jarr []) }]
        [ProtocolEvent.citations (Json.jarr [Json.null])]).getLastD dfltMsg).citations =
      some (Json.jarr [Json.null]) ∧
    ((sendMessageFold [{ role := Role.assistant, content := [], citations := some (Json.jarr []) }]
        [ProtocolEvent.citations (Json.jarr [Json.null]),
         ProtocolEvent.citations (Json.jarr [])]).getLastD dfltMsg).citations =
      some (Json.jarr []) ∧
    Json.jarr [Json.null] ≠ Json.jarr [] :=
  ⟨rfl, rfl, by simp⟩

/-- C8 (amended): a citations event always replaces the citation list
wholesale and is never merged; in `sendMessage` it is applied on every
citations frame (last write wins), while in `handleSubmit` the stream
itself never writes citations — the captured payload of the last citations
frame is attached at most once, after the stream ends. -/
theorem C8_citations_application :
    (∀ (msgs : List Msg) (j : Json) (d : Msg), msgs ≠ [] →
      ((sendMessageApply msgs (.citations j)).getLastD d).citations = some j) ∧
    (∀ (s : HandleSubmitState) (evs : List ProtocolEvent) (d : Msg), s.msgs ≠ [] →
      (((handleSubmitFold s evs).msgs).getLastD d).citations =
        (s.msgs.getLastD d).citations ∧
      (handleSubmitFold s evs).accCit = lastCit s.accCit evs) ∧
    (∀ (s : HandleSubmitState) (d : Msg), s.msgs ≠ [] →
      (s.msgs.getLastD d).role = Role.assistant →
      ((handleSubmitFinish s).getLastD d).citations =
        (if jsLenPos s.accCit = true then some s.accCit
         else (s.msgs.getLastD d).citations)) := by
  refine ⟨?_, ?_, ?_⟩
  · intro msgs j d h
    rw [show sendMessageApply msgs (.citations j) =
      setLast (fun m => { m with citations := some j }) msgs from rfl,
      setLast_getLastD _ msgs d h]
  · intro s evs d h
    have hf := handleSubmitFold_frame evs s d h
    exact ⟨hf.2.1, hf.2.2.2⟩
  · intro s d h hr
    unfold handleSubmitFinish
    by_cases hl : jsLenPos s.accCit = true
    · rw [if_pos hl, setLast_getLastD _ s.msgs d h, if_pos hr, if_pos hl]
    · rw [if_neg hl, if_neg hl]

/-- C8 witness: a wholesale replacement on a singleton turn list, a stream
that captures two citations payloads without writing them, and the single
attach step afterwards. -/
theorem C8_citations_application_witness :
    ([{ role := Role.assistant, content := [], citations := none }] ≠ ([] : List Msg)) ∧
    ((sendMessageApply [{ role := Role.assistant, content := [], citations := none }]
        (.citations (Json.jarr []))).getLastD dfltMsg).citations = some (Json.jarr []) ∧
    ((handleSubmitFold
        { msgs := [{ role := Role.assistant, content := [], citations := none }],
          acc := [], accCit := Json.jarr [] }
        [ProtocolEvent.citations (Json.jarr [Json.null])]).msgs.getLastD dfltMsg).citations =
      (([{ role := Role.assistant, content := [], citations := none }] :
        List Msg).getLastD dfltMsg).citations ∧
    (({ role := Role.assistant, content := [], citations := none } : Msg).role =
      Role.assistant) ∧
    ((handleSubmitFinish
        { msgs := [{ role := Role.assistant, content := [], citations := none }],
          acc := [], accCit := Json.jarr [Json.null] }).getLastD dfltMsg).citations =
      (if jsLenPos (Json.jarr [Json.null]) = true then some (Json.jarr [Json.null])
       else (([{ role := Role.assistant, content := [], citations := none }] :
         List Msg).getLastD dfltMsg).citations) :=
  ⟨by simp,
   C8_citations_application.1 [{ role := Role.assistant, content := [], citations := none }]
     (Json.jarr []) dfltMsg (by simp),
   (C8_citations_application.2.1
     { msgs := [{ role := Role.assistant, content := [], citations := none }],
       acc := [], accCit := Json.jarr [] }
     [ProtocolEvent.citations (Json.jarr [Json.null])] dfltMsg (by simp)).1,
   rfl,
   C8_citations_application.2.2
     { msgs := [{ role := Role.assistant, content := [], citations := none }],
       acc := [], accCit := Json.jarr [Json.null] } dfltMsg (by simp) rfl⟩

/-- C9: asking with a blank question, or while a stream is already open, is
a no-op for both implementations: the message list is unchanged and no
request is issued. -/
theorem C9_ask_noop (input : List Nat) (flag : Bool) (msgs : List Msg)
    (h : trimWs input = [] ∨ flag = true) :
    handleSubmitStart input flag msgs = (msgs, false) ∧
    sendMessageStart flag input msgs = (msgs, false) := by
  constructor
  · unfold handleSubmitStart
    rcases h with h | h
    · rw [if_pos (Or.inl h)]
    · rw [if_pos (Or.inr h)]
  · unfold sendMessageStart
    rcases h with h | h
    · by_cases hf : flag = true
      · rw [if_pos hf]
      · rw [if_neg hf, if_pos h]
    · rw [if_pos h]

/-- C9 witness: a whitespace-only question with no open stream, and a real
question while a stream is open. -/
theorem C9_ask_noop_witness :
    (trimWs (str "   ") = [] ∨ false = true) ∧
    handleSubmitStart (str "   ") false [] = ([], false) ∧
    sendMessageStart false (str "   ") [] = ([], false) ∧
    (trimWs (str "hi") = [] ∨ true = true) ∧
    handleSubmitStart (str "hi") true [] = ([], false) ∧
    sendMessageStart true (str "hi") [] = ([], false) :=
  ⟨Or.inl rfl,
   (C9_ask_noop (str "   ") false [] (Or.inl rfl)).1,
   (C9_ask_noop (str "   ") false [] (Or.inl rfl)).2,
   Or.inr rfl,
   (C9_ask_noop (str "hi") true [] (Or.inr rfl)).1,
   (C9_ask_noop (str "hi") true [] (Or.inr rfl)).2⟩

/-- C10 (counterexample): in `sendMessage` a token event mutates the last
message even when it is a user message: its content changes from "x" to
"x" ++ "hi" — the claim that nothing changes when the last message is not
an assistant message is false. -/
theorem C10_counterexample :
    (({ role := Role.user, content := str "x", citations := none } : Msg).role ≠
      Role.assistant) ∧
    ((sendMessageApply [{ role := Role.user, content := str "x", citations := none }]
        (.token (Json.jstr (str "hi")))).getLastD dfltMsg).content =
      str "x" ++ str "hi" ∧
    str "x" ++ str "hi" ≠ str "x" := by
  refine ⟨by decide, ?_, by decide⟩
  simp [sendMessageApply, setLast, tokenText, List.getLastD]

/-- C10 (amended): both consumers mutate at most the last message (all
other messages and the length are unchanged); `handleSubmit` additionally
changes nothing when the last message is not an assistant message, while
`sendMessage` applies token and citations events to the last message
regardless of its role. -/
theorem C10_frame_effect :
    (∀ (msgs : List Msg) (e : ProtocolEvent),
      (sendMessageApply msgs e).dropLast = msgs.dropLast ∧
      (sendMessageApply msgs e).length = msgs.length) ∧
    (∀ (s : HandleSubmitState) (e : ProtocolEvent),
      ((handleSubmitApply s e).msgs).dropLast = s.msgs.dropLast ∧
      ((handleSubmitApply s e).msgs).length = s.msgs.length) ∧
    (∀ (s : HandleSubmitState) (e : ProtocolEvent) (d : Msg), s.msgs ≠ [] →
      (s.msgs.getLastD d).role ≠ Role.assistant →
      (handleSubmitApply s e).msgs = s.msgs) := by
  refine ⟨?_, ?_, ?_⟩
  · intro msgs e
    cases e with
    | token v => exact ⟨setLast_dropLast _ msgs, setLast_length _ msgs⟩
    | citations j => exact ⟨setLast_dropLast _ msgs, setLast_length _ msgs⟩
  · intro s e
    cases e with
    | token v => exact ⟨setLast_dropLast _ s.msgs, setLast_length _ s.msgs⟩
    | citations j => exact ⟨rfl, rfl⟩
  · intro s e d h hr
    cases e with
    | token v =>
      show setLast _ s.msgs = s.msgs
      exact setLast_self _ s.msgs d h (by rw [if_neg hr])
    | citations j => rfl

/-- C10 witness: a token event on a conversation whose last message is a
user message leaves the `handleSubmit` message list unchanged. -/
theorem C10_frame_effect_witness :
    ([{ role := Role.user, content := str "x", citations := none }] ≠ ([] : List Msg)) ∧
    ((([{ role := Role.user, content := str "x", citations := none }] :
      List Msg).getLastD dfltMsg).role ≠ Role.assistant) ∧
    (handleSubmitApply
      { msgs := [{ role := Role.user, content := str "x", citations := none }],
        acc := [], accCit := Json.jarr [] }
      (.token (Json.jstr (str "hi")))).msgs =
      [{ role := Role.user, content := str "x", citations := none }] :=
  ⟨by simp, by decide,
   C10_frame_effect.2.2
     { msgs := [{ role := Role.user, content := str "x", citations := none }],
       acc := [], accCit := Json.jarr [] }
     (.token (Json.jstr (str "hi"))) dfltMsg (by simp) (by decide)⟩

end RAG
